import Mathlib

/-!
# Verification of the `cyme` fleet supervisor (scs.agent.supervisor / scs.supervisor)

A shallow embedding of the supervisor's reconciliation engine.  Broker RPCs
(`insured` / `ib` calls) are modelled by an environment record holding the
replies the broker would give; each supervisor method becomes a pure function
from the supervisor state and that environment to a trace of issued commands
and an updated state.  Times are rationals (seconds).
-/

/-- Time instants and durations, in seconds. -/
abbrev Time := ℚ

/-- Modelled from the spec: the external rate limiter (`celery.datastructures.TokenBucket`,
not part of this repository).  Per the spec (§3, glossary): capacity 1, configurable
refill rate, a token is available when the bucket, refilled at `fillRate` tokens
per second since `timestamp`, holds at least the requested amount. -/
structure TokenBucket where
  capacity : ℚ
  fillRate : ℚ
  tokens : ℚ
  timestamp : Time
deriving DecidableEq

/-- A fresh bucket starts full (capacity 1). -/
def TokenBucket.new (fillRate : ℚ) (now : Time) : TokenBucket :=
  { capacity := 1, fillRate := fillRate, tokens := 1, timestamp := now }

/-- Refill by elapsed time, capped at capacity; returns current tokens and bucket. -/
def TokenBucket.get_tokens (b : TokenBucket) (now : Time) : ℚ × TokenBucket :=
  if b.tokens < b.capacity then
    let t := min b.capacity (b.tokens + b.fillRate * (now - b.timestamp))
    (t, { b with tokens := t, timestamp := now })
  else
    (b.tokens, b)

/-- `TokenBucket.can_consume`: consume `n` tokens if available. -/
def TokenBucket.can_consume (b : TokenBucket) (n : ℚ) (now : Time) : Bool × TokenBucket :=
  let r := b.get_tokens now
  if n ≤ r.1 then (true, { r.2 with tokens := r.1 - n }) else (false, r.2)

/-- `Supervisor.restart_max_rate = "1/m"`, i.e. `rate("1/m")` = 1/60 tokens per second. -/
def restart_max_rate : ℚ := 1 / 60

/-- `Supervisor.wait_after_broker_revived = 35.0` seconds. -/
def wait_after_broker_revived : ℚ := 35

/-- The `Node` model record, as read by the supervisor (scs.models.Node interface):
identity (also the key of its restart bucket), enabled flag, saved flag (`pk`),
declared queues, direct queue, declared autoscale bounds. -/
structure Node where
  name : String
  is_enabled : Bool
  pk : Bool
  queues : List String
  direct_queue : String
  max_concurrency : Int
  min_concurrency : Int
deriving DecidableEq

/-- Observable effects of one supervisor action: broadcast commands issued to a
node, the `node.disable()` model mutation, and the two outcome log lines of
`_verify_restart_node`. -/
inductive Cmd where
  | restart (node : String)
  | ping (node : String) (timeout : ℚ)
  | add_queue (node : String) (q : String)
  | cancel_queue (node : String) (q : String)
  | autoscale (node : String) (maxc minc : Int)
  | stop (node : String)
  | disable (node : String)
  | log_restarted (node : String)
  | log_noresponse (node : String)
deriving DecidableEq

/-- Broker replies for the calls one per-node action can make: `ib(node.alive)`,
the i-th `node.responds_to_ping` attempt, `ib(node.consuming_from)` (the reply's
keys, or `none` for a nil reply), and `node.stats` (`none` when the reply is not
a map or lacks the `autoscaler` key, otherwise the observed `(max, min)`). -/
structure Env where
  alive : Bool
  ping : Nat → Bool
  consuming_from : Option (List String)
  stats : Option (Int × Int)

/-- Mutable state of a `Supervisor` instance: the `_buckets` registry (an
association list standing for the defaultdict keyed by the node's restart
identity), the `paused` flag and the broker-gate timestamp
(`state.broker_last_revived`). -/
structure Supervisor where
  buckets : List (String × TokenBucket)
  paused : Bool
  broker_last_revived : Option Time
deriving DecidableEq

/-- defaultdict access `self._buckets[key]`: return the existing bucket, or
create a fresh one (rate `restart_max_rate`) and record it. -/
def bucket_lookup (bs : List (String × TokenBucket)) (key : String) (now : Time) :
    TokenBucket × List (String × TokenBucket) :=
  match bs.lookup key with
  | some b => (b, bs)
  | none =>
      let b := TokenBucket.new restart_max_rate now
      (b, (key, b) :: bs)

/-- `self._buckets.pop(key)` / `.pop(key, None)`: remove the key. -/
def bucket_pop (bs : List (String × TokenBucket)) (key : String) :
    List (String × TokenBucket) :=
  bs.filter (fun p => p.1 ≠ key)

/-- In-place mutation of the bucket object stored under `key`. -/
def bucket_set (bs : List (String × TokenBucket)) (key : String) (b : TokenBucket) :
    List (String × TokenBucket) :=
  bs.map (fun p => if p.1 = key then (key, b) else p)

/-- `Supervisor._can_restart`: true iff `state.broker_last_revived` is unset or
`state.time_since_broker_revived > wait_after_broker_revived`. -/
def can_restart (s : Supervisor) (now : Time) : Bool :=
  match s.broker_last_revived with
  | none => true
  | some t => decide (now - t > wait_after_broker_revived)

/-- Modelled from the spec: the external schedule generator `kombu.utils.fxrangemax`
(not part of this repository; the source only calls it).  Per the spec (§4.6.3):
an increasing schedule from `start` in increments of `step`, capped at `stop`,
truncated to `maxSteps` attempts. -/
def fxrangemax (start stop step : ℚ) (maxSteps : Nat) : List ℚ :=
  (List.range maxSteps).map (fun (i : Nat) => min stop (start + step * (i : ℚ)))

/-- The ping-timeout schedule used by `_verify_restart_node`:
`fxrangemax(0.1, 1, 0.4, 30)`. -/
def ping_schedule : List ℚ :=
  fxrangemax (1 / 10) 1 (2 / 5) 30

/-- The ping loop of `_verify_restart_node`: try each timeout in turn (the `i`-th
attempt asks the environment), stop at the first positive reply.  Returns the
issued `pingWithTimeout` commands and the final `is_alive` flag. -/
def ping_loop (name : String) (env : Env) : List ℚ → Nat → List Cmd × Bool
  | [], _ => ([], false)
  | t :: ts, i =>
    if env.ping i then
      ([Cmd.ping name t], true)
    else
      let r := ping_loop name env ts (i + 1)
      (Cmd.ping name t :: r.1, r.2)

/-- `Supervisor._verify_restart_node`: issue `node.restart`, then probe liveness
over `ping_schedule`, and log the outcome. -/
def verify_restart_node (node : Node) (env : Env) : List Cmd :=
  let r := ping_loop node.name env ping_schedule 0
  Cmd.restart node.name ::
    r.1 ++ [if r.2 then Cmd.log_restarted node.name else Cmd.log_noresponse node.name]

/-- `Supervisor._do_restart_node(node, ratelimit)`: defaultdict access creates the
bucket; with `ratelimit` the broker gate and the token bucket guard the restart,
and bucket exhaustion disables the node and evicts its bucket; without
`ratelimit` the bucket is evicted and the restart always runs. -/
def do_restart_node (s : Supervisor) (node : Node) (ratelimit : Bool) (env : Env)
    (now : Time) : List Cmd × Supervisor :=
  let r := bucket_lookup s.buckets node.name now
  let s1 : Supervisor := { s with buckets := r.2 }
  if ratelimit then
    if can_restart s1 now then
      let c := r.1.can_consume 1 now
      if c.1 then
        (verify_restart_node node env, { s1 with buckets := bucket_set s1.buckets node.name c.2 })
      else
        ([Cmd.disable node.name], { s1 with buckets := bucket_pop s1.buckets node.name })
    else
      ([], s1)
  else
    (verify_restart_node node env, { s1 with buckets := bucket_pop s1.buckets node.name })

/-- `Supervisor._do_stop_node`: issue `node.stop`. -/
def do_stop_node (s : Supervisor) (node : Node) : List Cmd × Supervisor :=
  ([Cmd.stop node.name], s)

/-- `Supervisor._verify_node_queues`: reconcile the declared queue set against
the queues the node reports consuming from; a nil reply aborts the check. -/
def verify_node_queues (node : Node) (env : Env) : List Cmd :=
  match env.consuming_from with
  | none => []
  | some reply =>
      let queues := node.queues.dedup
      let consuming_from := reply.dedup
      let symdiff :=
        consuming_from.filter (fun q => ¬ q ∈ queues) ++
          queues.filter (fun q => ¬ q ∈ consuming_from)
      symdiff.flatMap (fun q =>
        if q ∈ queues then [Cmd.add_queue node.name q]
        else if q = node.direct_queue then []
        else [Cmd.cancel_queue node.name q])

/-- `Supervisor._verify_node_processes`: reconcile the autoscale bounds against
the node's reported autoscaler stats; a malformed or keyless stats reply aborts. -/
def verify_node_processes (node : Node) (env : Env) : List Cmd :=
  match env.stats with
  | none => []
  | some c =>
      if node.max_concurrency ≠ c.1 ∨ node.min_concurrency ≠ c.2 then
        [Cmd.autoscale node.name node.max_concurrency node.min_concurrency]
      else
        []

/-- `Supervisor._do_verify_node(node, ratelimit)`: a no-op while paused; an
enabled, saved node is restarted when not alive and then has its processes and
queues verified; a disabled or unsaved node that is alive is stopped. -/
def do_verify_node (s : Supervisor) (node : Node) (ratelimit : Bool) (env : Env)
    (now : Time) : List Cmd × Supervisor :=
  if ¬ s.paused then
    if node.is_enabled ∧ node.pk then
      let r :=
        if ¬ env.alive then do_restart_node s node ratelimit env now else ([], s)
      (r.1 ++ verify_node_processes node env ++ verify_node_queues node env, r.2)
    else
      if env.alive then do_stop_node s node else ([], s)
  else
    ([], s)

/-- Loop-level events of `Supervisor.run`: the action was invoked on a node, a
per-node exception was caught and logged, the request's completion event was
sent a value. -/
inductive Ev where
  | invoked (node : String)
  | errlogged (node : String)
  | completed (ok : Bool)
deriving DecidableEq

/-- What processing one dequeued request produces: the loop events, the
commands issued by the per-node actions, and the final supervisor state. -/
structure LoopResult where
  events : List Ev
  cmds : List Cmd
  final : Supervisor
deriving DecidableEq

/-- The per-request body of `Supervisor.run` without the finally-block: invoke
the action on each node in order; a raising action (`Except.error`) is caught
and logged and the loop continues with the next node. -/
def run_nodes (action : Supervisor → Node → Except String (List Cmd × Supervisor)) :
    List Node → Supervisor → LoopResult
  | [], s => { events := [], cmds := [], final := s }
  | n :: ns, s =>
    match action s n with
    | Except.ok r =>
        let rest := run_nodes action ns r.2
        { rest with events := Ev.invoked n.name :: rest.events, cmds := r.1 ++ rest.cmds }
    | Except.error _ =>
        let rest := run_nodes action ns s
        { rest with events := Ev.invoked n.name :: Ev.errlogged n.name :: rest.events }

/-- Processing one dequeued request in `Supervisor.run`: the per-node loop, then
the finally-block `event.send(True)`. -/
def run_request (s : Supervisor) (nodes : List Node)
    (action : Supervisor → Node → Except String (List Cmd × Supervisor)) : LoopResult :=
  let r := run_nodes action nodes s
  { r with events := r.events ++ [Ev.completed true] }

/-- The action a `verify(nodes, ratelimit)` request carries: `_do_verify_node`
with the broker replies for each node given by `envs`. -/
def verify_action (envs : String → Env) (ratelimit : Bool) (now : Time) :
    Supervisor → Node → Except String (List Cmd × Supervisor) :=
  fun s node => Except.ok (do_verify_node s node ratelimit (envs node.name) now)

/-- The name an `invoked` event carries, if any. -/
def invokedName : Ev → Option String
  | Ev.invoked n => some n
  | _ => none

/-! ### Concrete sample data, used by the witness theorems -/

/-- A sample node. -/
def sampleNode : Node :=
  { name := "n0", is_enabled := true, pk := true, queues := ["q1", "q2"],
    direct_queue := "d", max_concurrency := 10, min_concurrency := 2 }

/-- Broker replies for a dead node: not alive, never answers a ping, consumes
only from q1 and d, reports autoscaler bounds (8, 2). -/
def sampleEnvDead : Env :=
  { alive := false, ping := fun _ => false, consuming_from := some ["q1", "d"],
    stats := some (8, 2) }

/-- Broker replies for a node that answers the first ping. -/
def sampleEnvAlive : Env :=
  { alive := true, ping := fun _ => true, consuming_from := some ["q1", "q2"],
    stats := some (10, 2) }

/-- A fresh supervisor state: no buckets, not paused, broker never revived. -/
def sampleSup : Supervisor :=
  { buckets := [], paused := false, broker_last_revived := none }

/-- A paused supervisor state. -/
def pausedSup : Supervisor :=
  { buckets := [], paused := true, broker_last_revived := none }

/-- A supervisor state whose broker was revived at time 0 (so the gate is shut
for calls at times ≤ 35). -/
def gateClosedSup : Supervisor :=
  { buckets := [], paused := false, broker_last_revived := some 0 }

/-- A supervisor state holding an exhausted bucket (no tokens, stamped at
time 5) for node n0. -/
def exhaustedSup : Supervisor :=
  { buckets := [("n0", { capacity := 1, fillRate := restart_max_rate, tokens := 0, timestamp := 5 })],
    paused := false, broker_last_revived := none }

/-- A supervisor state holding a fresh (full) bucket for node n0. -/
def bucketSup : Supervisor :=
  { buckets := [("n0", TokenBucket.new restart_max_rate 0)],
    paused := false, broker_last_revived := none }

/-- An action that always raises. -/
def failAction : Supervisor → Node → Except String (List Cmd × Supervisor) :=
  fun _ _ => Except.error "boom"

/-- The number of ping attempts up to and including the first one the
environment answers, starting at attempt `i` with `fuel` attempts allowed;
`none` when no attempt in range is answered. -/
def alive_attempts (env : Env) : Nat → Nat → Option Nat
  | 0, _ => none
  | fuel + 1, i =>
      if env.ping i then some 1 else (alive_attempts env fuel (i + 1)).map (· + 1)

/-- The number of ping attempts `_verify_restart_node` makes: up to and
including the first answered attempt, else the whole schedule. -/
def ping_count (env : Env) : Nat :=
  match alive_attempts env ping_schedule.length 0 with
  | some m => m
  | none => ping_schedule.length

/-! ### Helper lemmas -/

lemma can_restart_set_buckets (s : Supervisor) (bs : List (String × TokenBucket))
    (now : Time) : can_restart { s with buckets := bs } now = can_restart s now := by
  cases s
  rfl

lemma lookup_some_mem_keys {bs : List (String × TokenBucket)} {k : String}
    {b : TokenBucket} (h : bs.lookup k = some b) : k ∈ bs.map Prod.fst := by
  induction bs with
  | nil => simp [List.lookup] at h
  | cons p t ih =>
      rcases p with ⟨a, v⟩
      rw [List.lookup] at h
      by_cases hk : k = a
      · simp [hk]
      · simp [beq_false_of_ne hk] at h
        simpa using Or.inr (ih h)

lemma mem_keys_bucket_lookup (bs : List (String × TokenBucket)) (k : String)
    (now : Time) : k ∈ ((bucket_lookup bs k now).2.map Prod.fst) := by
  unfold bucket_lookup
  rcases h : bs.lookup k with _ | b
  · simp
  · simpa using lookup_some_mem_keys h

lemma keys_bucket_set (bs : List (String × TokenBucket)) (k : String)
    (b : TokenBucket) : (bucket_set bs k b).map Prod.fst = bs.map Prod.fst := by
  unfold bucket_set
  rw [List.map_map]
  apply List.map_congr_left
  intro p _
  by_cases h : p.1 = k <;> simp [h]

lemma not_mem_keys_bucket_pop (bs : List (String × TokenBucket)) (k : String) :
    k ∉ (bucket_pop bs k).map Prod.fst := by
  unfold bucket_pop
  intro h
  rcases List.mem_map.1 h with ⟨p, hp, hfst⟩
  rcases List.mem_filter.1 hp with ⟨_, hne⟩
  have hne' : p.1 ≠ k := by simpa using hne
  exact hne' hfst

lemma ping_loop_mem (name : String) (env : Env) :
    ∀ (ts : List ℚ) (i : Nat) (c : Cmd),
      c ∈ (ping_loop name env ts i).1 → ∃ t, c = Cmd.ping name t := by
  intro ts
  induction ts with
  | nil =>
      intro i c h
      simp [ping_loop] at h
  | cons t ts ih =>
      intro i c h
      rw [ping_loop] at h
      by_cases hp : env.ping i
      · simp [hp] at h
        exact ⟨t, h⟩
      · simp [hp] at h
        rcases h with h | h
        · exact ⟨t, h⟩
        · exact ih (i + 1) c h

lemma verify_restart_node_shape (node : Node) (env : Env) (c : Cmd)
    (h : c ∈ verify_restart_node node env) :
    c = Cmd.restart node.name ∨ (∃ t, c = Cmd.ping node.name t) ∨
      c = Cmd.log_restarted node.name ∨ c = Cmd.log_noresponse node.name := by
  unfold verify_restart_node at h
  simp at h
  rcases h with h | h | h
  · exact Or.inl h
  · exact Or.inr (Or.inl (ping_loop_mem node.name env ping_schedule 0 c h))
  · rcases h' : (ping_loop node.name env ping_schedule 0).2 with _ | _ <;>
      simp [h'] at h <;> simp [h]

/-! ### Claim theorems -/

/-- C2: for every node and every pair of declared and observed queue sets,
`_verify_node_queues` never issues `cancel_queue(node.direct_queue)`, whether
the direct queue is declared, observed, both, or neither. -/
theorem direct_queue_never_cancelled (node : Node) (env : Env) :
    Cmd.cancel_queue node.name node.direct_queue ∉ verify_node_queues node env := by
  intro hmem
  unfold verify_node_queues at hmem
  rcases h : env.consuming_from with _ | reply <;> rw [h] at hmem
  · simp at hmem
  · simp only [List.mem_flatMap] at hmem
    obtain ⟨q, _, hq⟩ := hmem
    by_cases h1 : q ∈ node.queues.dedup
    · simp [h1] at hq
    · by_cases h2 : q = node.direct_queue
      · simp [h1, h2] at hq
      · simp [h1, h2] at hq
        exact h2 hq.symm

/-- Witness for C2 at a concrete node and environment. -/
theorem direct_queue_never_cancelled_witness :
    Cmd.cancel_queue "n0" "d" ∉ verify_node_queues sampleNode sampleEnvDead :=
  direct_queue_never_cancelled sampleNode sampleEnvDead

/-- C6: `_verify_node_processes` issues nothing when the stats reply lacks an
autoscaler entry (or is not a map), and otherwise issues the single command
`autoscale(max_concurrency, min_concurrency)`, arguments in that order, iff the
observed autoscaler bounds differ from the declared ones. -/
theorem autoscale_reconciliation (node : Node) (env : Env) :
    (env.stats = none → verify_node_processes node env = []) ∧
    (∀ cmax cmin : Int, env.stats = some (cmax, cmin) →
      verify_node_processes node env =
        if cmax ≠ node.max_concurrency ∨ cmin ≠ node.min_concurrency then
          [Cmd.autoscale node.name node.max_concurrency node.min_concurrency]
        else []) := by
  constructor
  · intro h
    simp [verify_node_processes, h]
  · intro cmax cmin h
    simp only [verify_node_processes, h]
    refine if_congr ?_ rfl rfl
    constructor <;> rintro (h' | h')
    · exact Or.inl (Ne.symm h')
    · exact Or.inr (Ne.symm h')
    · exact Or.inl (Ne.symm h')
    · exact Or.inr (Ne.symm h')

/-- Witness for C6: declared (10, 2), observed (8, 2): one autoscale command. -/
theorem autoscale_reconciliation_witness :
    verify_node_processes sampleNode sampleEnvDead = [Cmd.autoscale "n0" 10 2] := by
  have h := (autoscale_reconciliation sampleNode sampleEnvDead).2 8 2 rfl
  rw [h]
  simp [sampleNode]

/-- C1: `_do_restart_node` invokes the restart procedure (issuing `node.restart`)
only if ratelimit is off for the call, or the broker gate (`_can_restart`)
permits restarting and the node's token bucket yields a token; in particular a
rate-limited call while the gate is shut issues nothing at all. -/
theorem restart_gating (s : Supervisor) (node : Node) (ratelimit : Bool)
    (env : Env) (now : Time) :
    (Cmd.restart node.name ∈ (do_restart_node s node ratelimit env now).1 →
      ratelimit = false ∨
        (can_restart s now = true ∧
          ((bucket_lookup s.buckets node.name now).1.can_consume 1 now).1 = true)) ∧
    (ratelimit = true → can_restart s now = false →
      (do_restart_node s node ratelimit env now).1 = []) := by
  simp only [do_restart_node, can_restart_set_buckets]
  cases ratelimit
  · simp
  · cases hg : can_restart s now
    · simp [hg]
    · cases hc : ((bucket_lookup s.buckets node.name now).1.can_consume 1 now).1
      · simp [hg, hc]
      · simp [hg, hc]

/-- Witness for C1: a non-rate-limited call issues the restart (so the
disjunction is realised), and a rate-limited call during the cool-down window
issues nothing. -/
theorem restart_gating_witness :
    (false = false ∨
      (can_restart sampleSup 0 = true ∧
        ((bucket_lookup sampleSup.buckets sampleNode.name 0).1.can_consume 1 0).1 = true)) ∧
    (do_restart_node gateClosedSup sampleNode true sampleEnvDead 10).1 = [] :=
  ⟨(restart_gating sampleSup sampleNode false sampleEnvDead 0).1
      (by simp [do_restart_node, verify_restart_node]),
   (restart_gating gateClosedSup sampleNode true sampleEnvDead 10).2 rfl
      (by simp [can_restart, gateClosedSup, wait_after_broker_revived]; norm_num)⟩

/-- C3: with ratelimit on, the broker gate open, and the token bucket denying a
token, `_do_restart_node` disables the node exactly once, evicts the node's
bucket from the registry, and issues no restart. -/
theorem disable_on_exhaustion (s : Supervisor) (node : Node) (env : Env)
    (now : Time) (hgate : can_restart s now = true)
    (htok : ((bucket_lookup s.buckets node.name now).1.can_consume 1 now).1 = false) :
    (do_restart_node s node true env now).1 = [Cmd.disable node.name] ∧
    (do_restart_node s node true env now).1.count (Cmd.disable node.name) = 1 ∧
    Cmd.restart node.name ∉ (do_restart_node s node true env now).1 ∧
    node.name ∉ ((do_restart_node s node true env now).2.buckets.map Prod.fst) := by
  simp only [do_restart_node, can_restart_set_buckets, hgate, htok]
  refine ⟨by simp, by simp, by simp, ?_⟩
  simpa using not_mem_keys_bucket_pop (bucket_lookup s.buckets node.name now).2 node.name

/-- Witness for C3: an exhausted bucket for n0 at time 5 yields exactly one
disable command. -/
theorem disable_on_exhaustion_witness :
    (do_restart_node exhaustedSup sampleNode true sampleEnvDead 5).1 =
      [Cmd.disable "n0"] :=
  (disable_on_exhaustion exhaustedSup sampleNode sampleEnvDead 5 rfl
    (by norm_num [bucket_lookup, exhaustedSup, sampleNode, TokenBucket.can_consume,
          TokenBucket.get_tokens, List.lookup])).1

/-- C10: the `paused` flag does not affect the restart action or the stop
action: in two states that differ only in `paused`, `_do_restart_node` and
`_do_stop_node` issue the same commands and produce the same state apart from
the preserved `paused` value, so explicit restart/shutdown requests execute
even while the supervisor is paused. -/
theorem paused_noninterference (s : Supervisor) (b : Bool) (node : Node)
    (ratelimit : Bool) (env : Env) (now : Time) :
    do_restart_node { s with paused := b } node ratelimit env now =
      ((do_restart_node s node ratelimit env now).1,
        { (do_restart_node s node ratelimit env now).2 with paused := b }) ∧
    do_stop_node { s with paused := b } node =
      ((do_stop_node s node).1, { (do_stop_node s node).2 with paused := b }) := by
  cases s with
  | mk bk p br =>
    refine ⟨?_, rfl⟩
    simp only [do_restart_node, can_restart]
    cases ratelimit
    · rfl
    · cases br with
      | none =>
          cases hc : ((bucket_lookup bk node.name now).1.can_consume 1 now).1 <;>
            simp [hc]
      | some t =>
          cases hg : decide (now - t > wait_after_broker_revived) <;> simp only [hg] <;>
            cases hc : ((bucket_lookup bk node.name now).1.can_consume 1 now).1 <;>
              simp [hc]

/-- Witness for C10 (the theorem is hypothesis-free; a concrete instance). -/
theorem paused_noninterference_witness :
    do_restart_node { sampleSup with paused := true } sampleNode true sampleEnvDead 0 =
      ((do_restart_node sampleSup sampleNode true sampleEnvDead 0).1,
        { (do_restart_node sampleSup sampleNode true sampleEnvDead 0).2 with paused := true }) :=
  (paused_noninterference sampleSup true sampleNode true sampleEnvDead 0).1

lemma run_nodes_events (action : Supervisor → Node → Except String (List Cmd × Supervisor)) :
    ∀ (nodes : List Node) (s : Supervisor),
      ((run_nodes action nodes s).events.filterMap invokedName = nodes.map Node.name) ∧
      (∀ b : Bool, Ev.completed b ∉ (run_nodes action nodes s).events) := by
  intro nodes
  induction nodes with
  | nil =>
      intro s
      simp [run_nodes]
  | cons n ns ih =>
      intro s
      simp only [run_nodes]
      cases h : action s n with
      | ok r =>
          dsimp only
          refine ⟨by simp [invokedName, (ih r.2).1], ?_⟩
          intro b hb
          rcases List.mem_cons.1 hb with hb | hb
          · cases hb
          · exact (ih r.2).2 b hb
      | error e =>
          dsimp only
          refine ⟨by simp [invokedName, (ih s).1], ?_⟩
          intro b hb
          rcases List.mem_cons.1 hb with hb | hb
          · cases hb
          · rcases List.mem_cons.1 hb with hb | hb
            · cases hb
            · exact (ih s).2 b hb

/-- C5: processing one dequeued request invokes the action on every node in the
supplied order (per-node exceptions are caught and logged, and the loop goes on
with the remaining nodes), and the completion event is signalled exactly once,
with value true, whether or not actions raised. -/
theorem run_request_spec (s : Supervisor) (nodes : List Node)
    (action : Supervisor → Node → Except String (List Cmd × Supervisor)) :
    ((run_request s nodes action).events.filterMap invokedName = nodes.map Node.name) ∧
    ((run_request s nodes action).events.count (Ev.completed true) = 1) ∧
    (∀ b : Bool, Ev.completed b ∈ (run_request s nodes action).events → b = true) := by
  have h := run_nodes_events action nodes s
  unfold run_request
  refine ⟨?_, ?_, ?_⟩
  · simp [List.filterMap_append, h.1, invokedName]
  · rw [List.count_append]
    have h0 : (run_nodes action nodes s).events.count (Ev.completed true) = 0 :=
      List.count_eq_zero.2 (h.2 true)
    simp [h0]
  · intro b hb
    rcases List.mem_append.1 hb with hb | hb
    · exact absurd hb (h.2 b)
    · rcases List.mem_singleton.1 hb with hb
      cases hb
      rfl

/-- Witness for C5: one node with an always-raising action: the node is still
invoked and completion is still signalled with true. -/
theorem run_request_spec_witness :
    (Ev.completed true ∈ (run_request sampleSup [sampleNode] failAction).events) ∧
      true = true :=
  ⟨by simp [run_request, run_nodes, failAction],
   (run_request_spec sampleSup [sampleNode] failAction).2.2 true
      (by simp [run_request, run_nodes, failAction])⟩

lemma do_verify_node_paused (s : Supervisor) (node : Node) (ratelimit : Bool)
    (env : Env) (now : Time) (h : s.paused = true) :
    do_verify_node s node ratelimit env now = ([], s) := by
  simp [do_verify_node, h]

lemma run_nodes_verify_paused (envs : String → Env) (ratelimit : Bool) (now : Time) :
    ∀ (nodes : List Node) (s : Supervisor), s.paused = true →
      run_nodes (verify_action envs ratelimit now) nodes s =
        { events := nodes.map (fun n => Ev.invoked n.name), cmds := [], final := s } := by
  intro nodes
  induction nodes with
  | nil =>
      intro s h
      simp [run_nodes]
  | cons n ns ih =>
      intro s h
      simp only [run_nodes, verify_action]
      rw [do_verify_node_paused _ _ _ _ _ h]
      simp [ih s h]

/-- C7: while the supervisor is paused, per-node verification is a no-op: a
verify request issues no broker commands and performs no restart, stop, or
state mutation, yet the request is still processed (each node's action is
invoked) and its completion is signalled exactly once. -/
theorem paused_verify_noop (s : Supervisor) (nodes : List Node)
    (envs : String → Env) (ratelimit : Bool) (now : Time) (h : s.paused = true) :
    (run_request s nodes (verify_action envs ratelimit now)).cmds = [] ∧
    (run_request s nodes (verify_action envs ratelimit now)).final = s ∧
    (run_request s nodes (verify_action envs ratelimit now)).events.count
      (Ev.completed true) = 1 := by
  have hr := run_nodes_verify_paused envs ratelimit now nodes s h
  unfold run_request
  rw [hr]
  refine ⟨rfl, rfl, ?_⟩
  rw [List.count_append]
  have h0 : (nodes.map fun n => Ev.invoked n.name).count (Ev.completed true) = 0 := by
    apply List.count_eq_zero.2
    intro hmem
    rcases List.mem_map.1 hmem with ⟨a, _, ha⟩
    cases ha
  simp [h0]

/-- Witness for C7: a paused supervisor processing a one-node verify request. -/
theorem paused_verify_noop_witness :
    (run_request pausedSup [sampleNode] (verify_action (fun _ => sampleEnvDead) true 0)).cmds
      = [] ∧
    (run_request pausedSup [sampleNode] (verify_action (fun _ => sampleEnvDead) true 0)).final
      = pausedSup :=
  ⟨(paused_verify_noop pausedSup [sampleNode] (fun _ => sampleEnvDead) true 0 rfl).1,
   (paused_verify_noop pausedSup [sampleNode] (fun _ => sampleEnvDead) true 0 rfl).2.1⟩

lemma count_add_queue_flatMap (nm dq : String) (queues : List String) (x : String) :
    ∀ l : List String, l.Nodup →
      (l.flatMap fun q =>
          if q ∈ queues then [Cmd.add_queue nm q]
          else if q = dq then []
          else [Cmd.cancel_queue nm q]).count (Cmd.add_queue nm x) =
        if x ∈ l ∧ x ∈ queues then 1 else 0 := by
  intro l
  induction l with
  | nil =>
      intro _
      simp
  | cons q t ih =>
      intro hnd
      rcases List.nodup_cons.1 hnd with ⟨hq, hnd'⟩
      rw [List.flatMap_cons, List.count_append, ih hnd']
      have hcount : (if q ∈ queues then [Cmd.add_queue nm q]
          else if q = dq then [] else [Cmd.cancel_queue nm q]).count (Cmd.add_queue nm x) =
          if q = x ∧ q ∈ queues then 1 else 0 := by
        by_cases hmem : q ∈ queues
        · rw [if_pos hmem]
          by_cases hqx : q = x
          · subst hqx
            simp [hmem]
          · have hxq : ¬ x = q := fun h => hqx h.symm
            simp [hqx, hxq]
        · rw [if_neg hmem]
          by_cases hdq : q = dq
          · subst hdq
            simp [hmem]
          · simp [hmem, hdq]
      rw [hcount]
      by_cases hqx : q = x
      · subst hqx
        by_cases hmem : q ∈ queues <;> simp [hmem, hq]
      · have hxq : ¬ (x = q) := fun h => hqx h.symm
        simp [hqx, hxq, List.mem_cons]

lemma count_cancel_queue_flatMap (nm dq : String) (queues : List String) (x : String) :
    ∀ l : List String, l.Nodup →
      (l.flatMap fun q =>
          if q ∈ queues then [Cmd.add_queue nm q]
          else if q = dq then []
          else [Cmd.cancel_queue nm q]).count (Cmd.cancel_queue nm x) =
        if x ∈ l ∧ x ∉ queues ∧ x ≠ dq then 1 else 0 := by
  intro l
  induction l with
  | nil =>
      intro _
      simp
  | cons q t ih =>
      intro hnd
      rcases List.nodup_cons.1 hnd with ⟨hq, hnd'⟩
      rw [List.flatMap_cons, List.count_append, ih hnd']
      have hcount : (if q ∈ queues then [Cmd.add_queue nm q]
          else if q = dq then [] else [Cmd.cancel_queue nm q]).count (Cmd.cancel_queue nm x) =
          if q = x ∧ q ∉ queues ∧ q ≠ dq then 1 else 0 := by
        by_cases hmem : q ∈ queues
        · rw [if_pos hmem]
          simp [hmem]
        · rw [if_neg hmem]
          by_cases hdq : q = dq
          · rw [if_pos hdq]
            simp [hdq]
          · rw [if_neg hdq]
            by_cases hqx : q = x
            · subst hqx
              simp [hmem, hdq]
            · have hxq : ¬ x = q := fun h => hqx h.symm
              simp [hqx, hxq]
      rw [hcount]
      by_cases hqx : q = x
      · subst hqx
        by_cases hmem : q ∈ queues
        · simp [hmem, hq]
        · by_cases hdq : q = dq <;> simp [hmem, hdq, hq]
      · have hxq : ¬ (x = q) := fun h => hqx h.symm
        simp [hqx, hxq, List.mem_cons]

lemma symdiff_nodup (a b : List String) (ha : a.Nodup) (hb : b.Nodup) :
    ((a.filter fun q => ¬ q ∈ b) ++ (b.filter fun q => ¬ q ∈ a)).Nodup := by
  refine List.Nodup.append (ha.filter _) (hb.filter _) ?_
  intro x hx1 hx2
  rcases List.mem_filter.1 hx1 with ⟨hxa, hxb⟩
  rcases List.mem_filter.1 hx2 with ⟨hxb2, hxa2⟩
  have hxb' : x ∉ b := by simpa using hxb
  exact hxb' hxb2

lemma mem_symdiff (a b : List String) (x : String) :
    x ∈ ((a.filter fun q => ¬ q ∈ b) ++ (b.filter fun q => ¬ q ∈ a)) ↔
      ((x ∈ a ∧ x ∉ b) ∨ (x ∈ b ∧ x ∉ a)) := by
  simp [List.mem_append, List.mem_filter]

/-- C4: per queue q, on a non-nil reply `_verify_node_queues` issues exactly one
`add_queue q` when q is declared but not observed (also when q is the direct
queue), nothing when q is the direct queue and observed-only, exactly one
`cancel_queue q` for any other observed-only queue, and nothing for queues in
both sets or in neither; a nil reply yields no commands at all. -/
theorem queue_reconciliation (node : Node) (env : Env) :
    (env.consuming_from = none → verify_node_queues node env = []) ∧
    (∀ reply : List String, env.consuming_from = some reply → ∀ x : String,
      (verify_node_queues node env).count (Cmd.add_queue node.name x) =
        (if x ∈ node.queues ∧ x ∉ reply then 1 else 0) ∧
      (verify_node_queues node env).count (Cmd.cancel_queue node.name x) =
        (if x ∈ reply ∧ x ∉ node.queues ∧ x ≠ node.direct_queue then 1 else 0)) := by
  constructor
  · intro h
    simp [verify_node_queues, h]
  · intro reply h x
    have hnd := symdiff_nodup reply.dedup node.queues.dedup
      (List.nodup_dedup reply) (List.nodup_dedup node.queues)
    have hv : verify_node_queues node env =
        ((reply.dedup.filter fun q => ¬ q ∈ node.queues.dedup) ++
          (node.queues.dedup.filter fun q => ¬ q ∈ reply.dedup)).flatMap
          (fun q => if q ∈ node.queues.dedup then [Cmd.add_queue node.name q]
            else if q = node.direct_queue then []
            else [Cmd.cancel_queue node.name q]) := by
      simp only [verify_node_queues, h]
    rw [hv]
    constructor
    · rw [count_add_queue_flatMap node.name node.direct_queue node.queues.dedup x _ hnd]
      refine if_congr ?_ rfl rfl
      constructor
      · rintro ⟨hsym, hq⟩
        rcases (mem_symdiff _ _ _).1 hsym with ⟨_, hnb⟩ | ⟨_, hna⟩
        · exact absurd hq hnb
        · exact ⟨List.mem_dedup.1 hq, fun hr => hna (List.mem_dedup.2 hr)⟩
      · rintro ⟨hq, hr⟩
        exact ⟨(mem_symdiff _ _ _).2
            (Or.inr ⟨List.mem_dedup.2 hq, fun hc => hr (List.mem_dedup.1 hc)⟩),
          List.mem_dedup.2 hq⟩
    · rw [count_cancel_queue_flatMap node.name node.direct_queue node.queues.dedup x _ hnd]
      refine if_congr ?_ rfl rfl
      constructor
      · rintro ⟨hsym, hnq, hdq⟩
        rcases (mem_symdiff _ _ _).1 hsym with ⟨hb, _⟩ | ⟨hin, _⟩
        · exact ⟨List.mem_dedup.1 hb, fun hc => hnq (List.mem_dedup.2 hc), hdq⟩
        · exact absurd hin hnq
      · rintro ⟨hr, hnq, hdq⟩
        exact ⟨(mem_symdiff _ _ _).2
            (Or.inl ⟨List.mem_dedup.2 hr, fun hc => hnq (List.mem_dedup.1 hc)⟩),
          fun hc => hnq (List.mem_dedup.1 hc), hdq⟩

/-- Witness for C4: declared queues q1, q2, observed q1, d (with direct queue
d): exactly one add of q2, and no cancel of d. -/
theorem queue_reconciliation_witness :
    (verify_node_queues sampleNode sampleEnvDead).count
      (Cmd.add_queue sampleNode.name "q2") = 1 ∧
    (verify_node_queues sampleNode sampleEnvDead).count
      (Cmd.cancel_queue sampleNode.name "d") = 0 := by
  have h1 := ((queue_reconciliation sampleNode sampleEnvDead).2 ["q1", "d"] rfl "q2").1
  have h2 := ((queue_reconciliation sampleNode sampleEnvDead).2 ["q1", "d"] rfl "d").2
  constructor
  · rw [h1]
    decide
  · rw [h2]
    decide

lemma disable_not_in_verify_restart (node : Node) (env : Env) :
    Cmd.disable node.name ∉ verify_restart_node node env := by
  intro h
  rcases verify_restart_node_shape node env _ h with h' | ⟨t, h'⟩ | h' | h' <;> simp at h'

lemma ping_loop_all_false (name : String) (env : Env) (hf : ∀ i, env.ping i = false) :
    ∀ (ts : List ℚ) (i : Nat), ping_loop name env ts i = (ts.map (Cmd.ping name), false) := by
  intro ts
  induction ts with
  | nil =>
      intro i
      simp [ping_loop]
  | cons t ts ih =>
      intro i
      simp [ping_loop, hf i, ih (i + 1)]

/-- C8 counterexample: a non-rate-limited restart of n0 whose pings all fail (so
the restart does not succeed) and which disables nothing still evicts n0's
bucket from the registry. -/
theorem bucket_eviction_cex :
    sampleNode.name ∈ (bucketSup.buckets.map Prod.fst) ∧
    Cmd.disable sampleNode.name ∉
      (do_restart_node bucketSup sampleNode false sampleEnvDead 0).1 ∧
    Cmd.log_restarted sampleNode.name ∉
      (do_restart_node bucketSup sampleNode false sampleEnvDead 0).1 ∧
    sampleNode.name ∉
      ((do_restart_node bucketSup sampleNode false sampleEnvDead 0).2.buckets.map Prod.fst) := by
  have htr : (do_restart_node bucketSup sampleNode false sampleEnvDead 0).1 =
      verify_restart_node sampleNode sampleEnvDead := by
    simp [do_restart_node]
  refine ⟨by simp [bucketSup, sampleNode], ?_, ?_, ?_⟩
  · rw [htr]
    exact disable_not_in_verify_restart sampleNode sampleEnvDead
  · rw [htr]
    have hpl := ping_loop_all_false sampleNode.name sampleEnvDead (fun i => rfl)
      ping_schedule 0
    simp [verify_restart_node, hpl]
  · simpa [do_restart_node] using
      not_mem_keys_bucket_pop (bucket_lookup bucketSup.buckets sampleNode.name 0).2
        sampleNode.name

lemma pair_not_mem_bucket_pop (bs : List (String × TokenBucket)) (k : String)
    (x : TokenBucket) : (k, x) ∉ bucket_pop bs k := by
  intro h
  exact not_mem_keys_bucket_pop bs k (List.mem_map.2 ⟨(k, x), h, rfl⟩)

/-- C8 (amended): the node's bucket is created by the defaultdict access on any
restart attempt, and it is absent from the registry after `_do_restart_node`
exactly when the call was non-rate-limited (whether or not the restart
succeeded) or the node was disabled for bucket exhaustion. -/
theorem bucket_eviction_amended (s : Supervisor) (node : Node) (ratelimit : Bool)
    (env : Env) (now : Time) :
    (node.name ∉ ((do_restart_node s node ratelimit env now).2.buckets.map Prod.fst)) ↔
      (ratelimit = false ∨
        Cmd.disable node.name ∈ (do_restart_node s node ratelimit env now).1) := by
  simp only [do_restart_node, can_restart_set_buckets]
  cases ratelimit
  · simp [pair_not_mem_bucket_pop]
  · cases hg : can_restart s now
    · have hl := mem_keys_bucket_lookup s.buckets node.name now
      simp [hg, hl]
    · cases hc : ((bucket_lookup s.buckets node.name now).1.can_consume 1 now).1
      · simp [hg, hc, pair_not_mem_bucket_pop]
      · have h1 : node.name ∈ ((bucket_set (bucket_lookup s.buckets node.name now).2
            node.name ((bucket_lookup s.buckets node.name now).1.can_consume 1 now).2).map
            Prod.fst) := by
          rw [keys_bucket_set]
          exact mem_keys_bucket_lookup s.buckets node.name now
        have h2 := disable_not_in_verify_restart node env
        simp [hg, hc, h1, h2]

lemma ping_loop_take (name : String) (env : Env) :
    ∀ (ts : List ℚ) (i : Nat),
      ping_loop name env ts i =
        match alive_attempts env ts.length i with
        | some m => ((ts.take m).map (Cmd.ping name), true)
        | none => (ts.map (Cmd.ping name), false) := by
  intro ts
  induction ts with
  | nil =>
      intro i
      simp [ping_loop, alive_attempts]
  | cons t ts ih =>
      intro i
      rw [ping_loop]
      by_cases hp : env.ping i
      · rw [if_pos hp]
        have h1 : alive_attempts env (t :: ts).length i = some 1 := by
          simp [alive_attempts, hp]
        rw [h1]
        simp
      · rw [if_neg hp]
        have hstep : alive_attempts env (t :: ts).length i =
            (alive_attempts env ts.length (i + 1)).map (· + 1) := by
          simp [alive_attempts, hp]
        rw [hstep, ih (i + 1)]
        cases hfind : alive_attempts env ts.length (i + 1) with
        | none => simp
        | some m => simp [List.take_succ_cons]

/-- C9: after issuing `node.restart`, `_verify_restart_node` probes liveness
with timeouts from the schedule (starting at 0.1 s, step 0.4, capped at 1 s,
at most 30 attempts), stops at the first positive reply logging success, and
when no attempt replies it merely logs that the node does not respond: the
trace is exactly the restart, the pings up to the stopping point, and one log
line. -/
theorem restart_ping_schedule (node : Node) (env : Env) :
    verify_restart_node node env =
      Cmd.restart node.name ::
        (ping_schedule.take (ping_count env)).map (Cmd.ping node.name) ++
        [if (alive_attempts env ping_schedule.length 0).isSome
          then Cmd.log_restarted node.name else Cmd.log_noresponse node.name] ∧
    ping_schedule.length = 30 ∧
    ping_schedule[0]? = some (1 / 10) ∧
    (∀ t ∈ ping_schedule, t ≤ 1) ∧
    List.Pairwise (· ≤ ·) ping_schedule := by
  refine ⟨?_, ?_, ?_, ?_, ?_⟩
  · unfold verify_restart_node
    rw [ping_loop_take node.name env ping_schedule 0]
    unfold ping_count
    cases hf : alive_attempts env ping_schedule.length 0 with
    | none => simp
    | some m => simp
  · simp only [ping_schedule, fxrangemax, List.length_map, List.length_range]
  · simp only [ping_schedule, fxrangemax]
    rw [List.getElem?_map]
    have h0 : (List.range 30)[0]? = some 0 := by
      rw [List.getElem?_range]
      norm_num
    rw [h0]
    have hmin : min (1 : ℚ) (1 / 10 + 2 / 5 * ((0 : ℕ) : ℚ)) = 1 / 10 := by
      rw [Nat.cast_zero, mul_zero, add_zero]
      exact min_eq_right (by norm_num)
    simp [hmin]
    norm_num
  · intro t ht
    simp only [ping_schedule, fxrangemax, List.mem_map, List.mem_range] at ht
    obtain ⟨i, _, rfl⟩ := ht
    exact min_le_left _ _
  · simp only [ping_schedule, fxrangemax]
    have hmono : ∀ a b : ℕ, a < b →
        min (1 : ℚ) (1 / 10 + 2 / 5 * a) ≤ min (1 : ℚ) (1 / 10 + 2 / 5 * b) := by
      intro a b hab
      have hc : (a : ℚ) ≤ (b : ℚ) := by exact_mod_cast hab.le
      have hlin : (1 : ℚ) / 10 + 2 / 5 * a ≤ 1 / 10 + 2 / 5 * b := by
        have := mul_le_mul_of_nonneg_left hc (by norm_num : (0 : ℚ) ≤ 2 / 5)
        linarith
      exact min_le_min le_rfl hlin
    exact List.Pairwise.map _ hmono (List.pairwise_lt_range 30)

/-- Witness for C9: a node answering the first ping, and the schedule bound at
the first timeout. -/
theorem restart_ping_schedule_witness :
    verify_restart_node sampleNode sampleEnvAlive =
      Cmd.restart sampleNode.name ::
        (ping_schedule.take (ping_count sampleEnvAlive)).map (Cmd.ping sampleNode.name) ++
        [if (alive_attempts sampleEnvAlive ping_schedule.length 0).isSome
          then Cmd.log_restarted sampleNode.name
          else Cmd.log_noresponse sampleNode.name] ∧
    (1 / 10 : ℚ) ≤ 1 := by
  refine ⟨(restart_ping_schedule sampleNode sampleEnvAlive).1, ?_⟩
  have hm : (1 / 10 : ℚ) ∈ ping_schedule := by
    simp only [ping_schedule, fxrangemax, List.mem_map, List.mem_range]
    exact ⟨0, by norm_num, by norm_num⟩
  exact (restart_ping_schedule sampleNode sampleEnvAlive).2.2.2.1 (1 / 10) hm
